import Mathlib

/-!
# Verification of the Centauri Carbon OTA container codec

Shallow embedding of the two container-codec tools
(`src/tools/cc_swu_encrypt.py` and `src/tools/cc_swu_decrypt.py`) and proofs
about the claims of the specification.

Bytes are modelled as `Fin 256`; byte strings as `List Byte`.  The external
AES-256-CBC primitive (invoked through `openssl enc` in the source) and the
external MD5 primitive (`hashlib.md5`) are modelled as abstract providers,
exactly as the specification treats them (§1 "Cipher Provider", §4.3
IntegrityChecker): the codec under verification is everything around them.
-/

set_option linter.unusedVariables false

deriving instance DecidableEq for Except

/-- A byte, as stored in a Python `bytes` object. -/
def Byte : Type := Fin 256

instance : DecidableEq Byte := instDecidableEqFin 256

instance : OfNat Byte n := ⟨ Fin.ofNat n ⟩

instance : Inhabited Byte := ⟨ (0 : Fin 256) ⟩

/-- The failure kinds of the codec, named after the error taxonomy of spec §7.
In the source every failure is a raised `ValueError` / `RuntimeError`; the
distinct raise sites correspond one-to-one to these constructors. -/
inductive Err : Type where
  | tooSmall
  | badMagic
  | integrityMismatch
  | cipherLength
  | notAnArchive
deriving DecidableEq, Repr

/-- Modelled from the spec: the external Cipher Provider (the `openssl enc
-aes-256-cbc -nopad` subprocess in the source, which is not part of this
repository).  Spec §1 and §4.5 step 3: block encryption/decryption keyed by a
key and IV string, ciphertext length equals plaintext length, and decryption
under the same key and IV inverts encryption on block-aligned input. -/
structure Cipher : Type where
  encrypt : String → String → List Byte → List Byte
  decrypt : String → String → List Byte → List Byte
  length_encrypt : ∀ k iv d, (encrypt k iv d).length = d.length
  length_decrypt : ∀ k iv d, (decrypt k iv d).length = d.length
  decrypt_encrypt : ∀ k iv d, d.length % 16 = 0 → decrypt k iv (encrypt k iv d) = d

/-- Modelled from the spec: the external 128-bit digest primitive
(`hashlib.md5` in the source, not part of this repository).  Spec §4.3: a
fixed digest function producing 16 bytes. -/
structure Md5 : Type where
  digest : List Byte → List Byte
  length_digest : ∀ d, (digest d).length = 16

/-- Python `v & 0xFF` on an arbitrary integer: its low 8 bits, as a byte.
For `Int`, Python's `& 0xFF` agrees with the nonnegative remainder mod 256. -/
def byteOfInt (v : Int) : Byte :=
  ⟨ (v % 256).toNat, by omega ⟩

/-- `struct.pack("<I", n)`: the 4 little-endian bytes of `n` (defined for
`n < 2^32`; the Python call raises beyond that). -/
def le32 (n : Nat) : List Byte :=
  [⟨ n % 256, by omega ⟩, ⟨ n / 256 % 256, by omega ⟩,
   ⟨ n / 65536 % 256, by omega ⟩, ⟨ n / 16777216 % 256, by omega ⟩]

/-- `struct.unpack_from("<I", ·)`: read 4 bytes as a little-endian uint32. -/
def le32parse (bs : List Byte) : Nat :=
  (bs.getD 0 0).val + 256 * (bs.getD 1 0).val +
    65536 * (bs.getD 2 0).val + 16777216 * (bs.getD 3 0).val

namespace cc_swu_encrypt

/-- `_KEY` of `cc_swu_encrypt.py` (line 48). -/
def _KEY : String := "78B6A614B6B6E361DC84D705B7FDDA33C967DDF2970A689F8156F78EFE0B1FCE"

/-- `_IV` of `cc_swu_encrypt.py` (line 49). -/
def _IV : String := "54E37626B9A699403064111F77858049"

/-- `OTA_MAGIC` of `cc_swu_encrypt.py`. -/
def OTA_MAGIC : List Byte := [0x14, 0x17, 0x0B, 0x17]

/-- `CUSTOM_INFO` of `cc_swu_encrypt.py`. -/
def CUSTOM_INFO : List Byte := [0x01, 0x00, 0x00, 0x00]

/-- `_pad16` of `cc_swu_encrypt.py`: zero-pad to the next 16-byte boundary
(no-op when already aligned). -/
def _pad16 (data : List Byte) : List Byte :=
  let remainder := data.length % 16
  if remainder ≠ 0 then data ++ List.replicate (16 - remainder) 0 else data

/-- Steps 2–6 of `encrypt` in `cc_swu_encrypt.py`, with the key and IV that
are handed to the cipher left as parameters (the source passes its constants
`_KEY`, `_IV` to `openssl`): pad, encrypt, digest, build the 32-byte header,
return header ‖ encrypted payload. -/
def packWith (C : Cipher) (M : Md5) (key iv : String) (zipBytes : List Byte)
    (major minor patch board : Int) : List Byte :=
  let zipPadded := _pad16 zipBytes
  let encrypted := C.encrypt key iv zipPadded
  let md5Digest := M.digest encrypted
  let firmwareInfo : List Byte :=
    [byteOfInt major, byteOfInt minor, byteOfInt patch, byteOfInt board]
  let header := OTA_MAGIC ++ firmwareInfo ++ CUSTOM_INFO ++
      le32 encrypted.length ++ md5Digest
  header ++ encrypted

/-- The pack operation of `cc_swu_encrypt.py` (`encrypt`, steps 2–6, i.e.
everything after the input archive bytes have been obtained), at the
hard-coded key and IV of the file. -/
def pack (C : Cipher) (M : Md5) (zipBytes : List Byte)
    (major minor patch board : Int) : List Byte :=
  packWith C M _KEY _IV zipBytes major minor patch board

/-- Step 1 of `encrypt` in `cc_swu_encrypt.py` (lines 81–92): obtain the
archive bytes.  A path ending in `.swu` is wrapped (the zip construction
itself is the external `zipfile` module, passed in as `wrapped`); any other
input must begin with the two signature bytes `PK`, else the function raises
(`NotAnArchiveError` in the spec taxonomy). -/
def obtainZip (inpath : List Char) (fileBytes wrapped : List Byte) :
    Except Err (List Byte) :=
  if inpath.reverse.take 4 = ['u', 'w', 's', '.'] then .ok wrapped
  else if fileBytes.take 2 = [0x50, 0x4B] then .ok fileBytes
  else .error .notAnArchive

/-- The `update/update.swu` entry name used when wrapping a raw `.swu` file. -/
def entryName : String := "update/update.swu"

/-- The whole encode path of `cc_swu_encrypt.py`: obtain the archive bytes
(step 1), then pack.  `wrap` stands for `_wrap_swu_in_zip`'s external zip
construction, applied to the input file's bytes and the fixed entry name. -/
def encodeTool (C : Cipher) (M : Md5) (wrap : List Byte → String → List Byte)
    (inpath : List Char) (fileBytes : List Byte)
    (major minor patch board : Int) : Except Err (List Byte) :=
  (obtainZip inpath fileBytes (wrap fileBytes entryName)).map
    (fun zipBytes => pack C M zipBytes major minor patch board)

end cc_swu_encrypt

namespace cc_swu_decrypt

/-- `_KEY` of `cc_swu_decrypt.py` (line 27) — note it differs from the key of
`cc_swu_encrypt.py` in its trailing bytes. -/
def _KEY : String := "78B6A614B6B6E361DC84D705B7FDDA33C967DDF2970A689F8156F78EFE0B0928"

/-- `_IV` of `cc_swu_decrypt.py` (line 28). -/
def _IV : String := "54E37626B9A699403064111F77858049"

/-- `HEADER_SIZE` of `cc_swu_decrypt.py`. -/
def HEADER_SIZE : Nat := 0x20

/-- `OTA_MAGIC` of `cc_swu_decrypt.py`. -/
def OTA_MAGIC : List Byte := [0x14, 0x17, 0x0B, 0x17]

/-- The `data[0x0C:0x10]` field of a container read as a little-endian
uint32: the declared payload length (`enc_len` in the source; used there for
diagnostics only). -/
def encLenOf (data : List Byte) : Nat :=
  le32parse ((data.drop 0x0C).take 4)

/-- `decrypt` of `cc_swu_decrypt.py` with the key and IV handed to the cipher
left as parameters (the source passes its constants `_KEY`, `_IV` to
`openssl`).  Checks in source order: minimum size (line 38), magic (line 48),
MD5 of the payload `data[0x20:]` against the stored digest `data[0x10:0x20]`
(lines 56–60), then decryption; the `-nopad` cipher call fails unless the
payload length is a multiple of 16 (spec §4.5 step 6, `CipherLengthError`). -/
def unpackWith (C : Cipher) (M : Md5) (key iv : String) (data : List Byte) :
    Except Err (List Byte) :=
  if data.length < HEADER_SIZE then .error .tooSmall
  else if data.take 4 ≠ OTA_MAGIC then .error .badMagic
  else if M.digest (data.drop 0x20) ≠ (data.drop 0x10).take 16 then
    .error .integrityMismatch
  else if (data.drop 0x20).length % 16 ≠ 0 then .error .cipherLength
  else .ok (C.decrypt key iv (data.drop 0x20))

/-- The unpack operation of `cc_swu_decrypt.py` (`decrypt`), at the
hard-coded key and IV of the file. -/
def unpack (C : Cipher) (M : Md5) (data : List Byte) : Except Err (List Byte) :=
  unpackWith C M _KEY _IV data

end cc_swu_decrypt

/-! ## Concrete providers used for witnesses and counterexamples -/

/-- A cipher provider whose encryption is the identity for every key: the
simplest inhabitant of the provider interface, used to instantiate theorems
at concrete inputs. -/
def idCipher : Cipher where
  encrypt := fun _ _ d => d
  decrypt := fun _ _ d => d
  length_encrypt := fun _ _ _ => rfl
  length_decrypt := fun _ _ _ => rfl
  decrypt_encrypt := fun _ _ _ _ => rfl

/-- Complement every bit of a byte (an involution on bytes). -/
def revByte (b : Byte) : Byte :=
  ⟨ 255 - b.val, by omega ⟩

/-- A cipher provider that is sensitive to its key, as a real block cipher
is: under the encode tool's key it complements every byte, under any other
key it is the identity.  It satisfies all provider laws. -/
def keyedCipher : Cipher where
  encrypt := fun k _ d => if k = cc_swu_encrypt._KEY then d.map revByte else d
  decrypt := fun k _ d => if k = cc_swu_encrypt._KEY then d.map revByte else d
  length_encrypt := by intro k iv d; by_cases h : k = cc_swu_encrypt._KEY <;> simp [h]
  length_decrypt := by intro k iv d; by_cases h : k = cc_swu_encrypt._KEY <;> simp [h]
  decrypt_encrypt := by
    intro k iv d hlen
    by_cases h : k = cc_swu_encrypt._KEY
    · simp only [h, if_pos rfl, List.map_map]
      have : revByte ∘ revByte = id := by
        funext b
        have hb := b.isLt
        simp only [Function.comp_apply, revByte, id]
        exact Fin.ext (by simp; omega)
      simp [this]
    · simp [h]

/-- A digest provider returning 15 zero bytes followed by the byte sum of the
input: a concrete inhabitant of the digest interface, used to instantiate
theorems at concrete inputs. -/
def sumMd5 : Md5 where
  digest := fun d =>
    List.replicate 15 (0 : Byte) ++ [⟨ (d.map Fin.val).sum % 256, by omega ⟩]
  length_digest := by intro d; simp

/-! ## Quick sanity checks of the embedding -/

example : cc_swu_encrypt._pad16 [1] =
    [1] ++ List.replicate 15 (0 : Byte) := by decide

example : cc_swu_encrypt._pad16 ([] : List Byte) = [] := by decide

example : le32parse (le32 300) = 300 := by decide

/-! ## Helper lemmas -/

theorem take_set_le {α : Type} (l : List α) (i m : Nat) (a : α) (h : m ≤ i) :
    (l.set i a).take m = l.take m := by
  induction l generalizing i m with
  | nil => simp
  | cons x xs ih =>
    cases m with
    | zero => simp
    | succ m' =>
      cases i with
      | zero => omega
      | succ i' =>
        simp only [List.set, List.take_succ_cons]
        rw [ih i' m' (by omega)]

theorem drop_set_ge {α : Type} (l : List α) (i m : Nat) (a : α) (h : m ≤ i) :
    (l.set i a).drop m = (l.drop m).set (i - m) a := by
  rw [List.drop_set, if_neg (by omega)]

theorem pad16_mod (x : List Byte) : (cc_swu_encrypt._pad16 x).length % 16 = 0 := by
  unfold cc_swu_encrypt._pad16
  by_cases h : x.length % 16 = 0
  · simp [h]
  · simp only [h, ne_eq, not_false_iff, if_pos, List.length_append,
      List.length_replicate]
    omega

namespace cc_swu_encrypt

variable (C : Cipher) (M : Md5) (key iv : String) (zipBytes : List Byte)
variable (major minor patch board : Int)

theorem packWith_take4 :
    (packWith C M key iv zipBytes major minor patch board).take 4 = OTA_MAGIC := rfl

theorem packWith_fw :
    ((packWith C M key iv zipBytes major minor patch board).drop 4).take 4 =
      [byteOfInt major, byteOfInt minor, byteOfInt patch, byteOfInt board] := rfl

theorem packWith_lenField :
    ((packWith C M key iv zipBytes major minor patch board).drop 12).take 4 =
      le32 (C.encrypt key iv (_pad16 zipBytes)).length := rfl

theorem packWith_drop16 :
    (packWith C M key iv zipBytes major minor patch board).drop 16 =
      M.digest (C.encrypt key iv (_pad16 zipBytes)) ++
        C.encrypt key iv (_pad16 zipBytes) := rfl

theorem packWith_stored :
    ((packWith C M key iv zipBytes major minor patch board).drop 16).take 16 =
      M.digest (C.encrypt key iv (_pad16 zipBytes)) := by
  rw [packWith_drop16,
    List.take_append_of_le_length (by rw [M.length_digest]),
    List.take_of_length_le (by rw [M.length_digest])]

theorem packWith_drop32 :
    (packWith C M key iv zipBytes major minor patch board).drop 32 =
      C.encrypt key iv (_pad16 zipBytes) := by
  have h : (32 : Nat) = 16 + 16 := by norm_num
  rw [h, ← List.drop_drop, packWith_drop16,
    show (16 : Nat) = (M.digest (C.encrypt key iv (_pad16 zipBytes))).length from
      (M.length_digest _).symm,
    List.drop_left]

theorem packWith_length :
    (packWith C M key iv zipBytes major minor patch board).length =
      32 + (C.encrypt key iv (_pad16 zipBytes)).length := by
  simp [packWith, OTA_MAGIC, CUSTOM_INFO, le32, M.length_digest]
  omega

end cc_swu_encrypt

namespace cc_swu_decrypt

theorem unpackWith_ok_iff (C : Cipher) (M : Md5) (key iv : String)
    (data : List Byte) (a : List Byte) :
    unpackWith C M key iv data = .ok a ↔
      (HEADER_SIZE ≤ data.length ∧ data.take 4 = OTA_MAGIC ∧
       M.digest (data.drop 32) = (data.drop 16).take 16 ∧
       (data.drop 32).length % 16 = 0 ∧
       a = C.decrypt key iv (data.drop 32)) := by
  unfold unpackWith
  split_ifs with h1 h2 h3 h4
  · constructor
    · intro h; cases h
    · rintro ⟨hle, -⟩; exact absurd h1 (Nat.not_lt.mpr hle)
  · constructor
    · intro h; cases h
    · rintro ⟨-, hm, -⟩; exact absurd hm h2
  · constructor
    · intro h; cases h
    · rintro ⟨-, -, hd, -⟩; exact absurd hd h3
  · constructor
    · intro h; cases h
    · rintro ⟨-, -, -, hl, -⟩; exact absurd hl h4
  · constructor
    · intro h
      exact ⟨Nat.not_lt.mp h1, not_not.mp h2, not_not.mp h3, not_not.mp h4,
        (Except.ok.inj h).symm⟩
    · rintro ⟨-, -, -, -, rfl⟩
      rfl

end cc_swu_decrypt

theorem pad16_of_aligned (y : List Byte) (h : y.length % 16 = 0) :
    cc_swu_encrypt._pad16 y = y := by
  unfold cc_swu_encrypt._pad16
  simp [h]

/-- C6: `_pad16` is idempotent, its result length is always a multiple of
16, block-aligned input is returned unchanged, and otherwise exactly
`16 - (len % 16)` zero bytes are appended. -/
theorem pad16_spec (x : List Byte) :
    cc_swu_encrypt._pad16 (cc_swu_encrypt._pad16 x) = cc_swu_encrypt._pad16 x ∧
    (cc_swu_encrypt._pad16 x).length % 16 = 0 ∧
    (x.length % 16 = 0 → cc_swu_encrypt._pad16 x = x) ∧
    (x.length % 16 ≠ 0 →
      cc_swu_encrypt._pad16 x =
        x ++ List.replicate (16 - x.length % 16) (0 : Byte)) := by
  refine ⟨pad16_of_aligned _ (pad16_mod x), pad16_mod x, pad16_of_aligned x, ?_⟩
  intro h
  unfold cc_swu_encrypt._pad16
  simp [h]

/-- C6 witness: the padding facts evaluated at the concrete inputs `[1]`
(unaligned) and `[]` (aligned). -/
theorem pad16_spec_witness :
    cc_swu_encrypt._pad16 ([1] : List Byte) =
      [1] ++ List.replicate 15 (0 : Byte) ∧
    cc_swu_encrypt._pad16 ([] : List Byte) = [] :=
  ⟨(pad16_spec [1]).2.2.2 (by decide), (pad16_spec []).2.2.1 (by decide)⟩

/-- C7: `pack` stores only the low 8 bits of each version/board argument in
the four single-byte header fields at offsets 4–7 (e.g. 300 is stored as
44); `pack` is a total function on `Int` arguments, so out-of-range values
are masked, never rejected. -/
theorem version_masking (C : Cipher) (M : Md5) (zipBytes : List Byte)
    (major minor patch board : Int) :
    ((cc_swu_encrypt.pack C M zipBytes major minor patch board).drop 4).take 4 =
      [byteOfInt major, byteOfInt minor, byteOfInt patch, byteOfInt board] ∧
    byteOfInt 300 = (44 : Byte) ∧ byteOfInt (-1) = (255 : Byte) :=
  ⟨cc_swu_encrypt.packWith_fw C M _ _ zipBytes major minor patch board,
    by decide, by decide⟩

/-- C3 counterexample: an input whose first 4 bytes differ from the magic
but which is shorter than the 32-byte header fails with `tooSmall`, not
`badMagic`: the size check of `decrypt` (line 38) precedes the magic check
(line 48), so the claim's "regardless of its length" fails. -/
theorem bad_magic_short_cex :
    ([0, 0, 0, 0] : List Byte).take 4 ≠ cc_swu_decrypt.OTA_MAGIC ∧
    cc_swu_decrypt.unpack idCipher sumMd5 [0, 0, 0, 0] = .error .tooSmall ∧
    cc_swu_decrypt.unpack idCipher sumMd5 [0, 0, 0, 0] ≠ .error .badMagic := by
  refine ⟨by decide, by decide, by decide⟩

/-- C3 amended: every input of at least 32 bytes whose first 4 bytes differ
from `14 17 0B 17` fails with `badMagic`, regardless of the rest of the
content; inputs shorter than 32 bytes fail with `tooSmall` instead. -/
theorem bad_magic_error (C : Cipher) (M : Md5) (data : List Byte)
    (hlen : 32 ≤ data.length)
    (hmagic : data.take 4 ≠ cc_swu_decrypt.OTA_MAGIC) :
    cc_swu_decrypt.unpack C M data = .error .badMagic := by
  unfold cc_swu_decrypt.unpack cc_swu_decrypt.unpackWith
  rw [if_neg (by simp only [cc_swu_decrypt.HEADER_SIZE]; omega), if_pos hmagic]

/-- C3 witness: the amended theorem applied to a 32-byte all-zero input. -/
theorem bad_magic_error_witness :
    cc_swu_decrypt.unpack idCipher sumMd5 (List.replicate 32 0) =
      .error .badMagic :=
  bad_magic_error idCipher sumMd5 (List.replicate 32 0) (by decide) (by decide)

/-- C2: once the size and magic checks pass, the digest over the payload
(all bytes after offset 32) is compared against the stored digest before any
decryption, and nothing else is consulted first — in particular the declared
`payloadLength` header field is not: a digest mismatch yields
`integrityMismatch` whatever the declared length says, and when the digest
matches, unpack proceeds directly to the cipher stage (succeeding, or
failing with `cipherLength` for a non-block-aligned payload), so a length
mismatch alone never causes a failure before integrity verification. -/
theorem integrity_before_decrypt (C : Cipher) (M : Md5) (data : List Byte)
    (hlen : 32 ≤ data.length)
    (hmagic : data.take 4 = cc_swu_decrypt.OTA_MAGIC) :
    (M.digest (data.drop 32) ≠ (data.drop 16).take 16 →
      cc_swu_decrypt.unpack C M data = .error .integrityMismatch) ∧
    (M.digest (data.drop 32) = (data.drop 16).take 16 →
      cc_swu_decrypt.unpack C M data =
        if (data.drop 32).length % 16 ≠ 0 then .error .cipherLength
        else .ok (C.decrypt cc_swu_decrypt._KEY cc_swu_decrypt._IV
          (data.drop 32))) := by
  unfold cc_swu_decrypt.unpack cc_swu_decrypt.unpackWith
  rw [if_neg (by simp only [cc_swu_decrypt.HEADER_SIZE]; omega),
    if_neg (not_not_intro hmagic)]
  constructor
  · intro hd
    rw [if_pos hd]
  · intro hd
    rw [if_neg (not_not_intro hd)]

/-- C2 witness: a 33-byte input with correct magic, a declared payload
length (99) different from the actual payload length (1), and a stored
digest that does not match: unpack reports `integrityMismatch`, showing the
length mismatch did not pre-empt the integrity check. -/
theorem integrity_before_decrypt_witness :
    cc_swu_decrypt.encLenOf
        ([0x14, 0x17, 0x0B, 0x17] ++ List.replicate 8 0 ++ [99, 0, 0, 0] ++
          List.replicate 16 0 ++ [1]) ≠
      (([0x14, 0x17, 0x0B, 0x17] ++ List.replicate 8 0 ++ [99, 0, 0, 0] ++
          List.replicate 16 0 ++ [1] : List Byte).drop 32).length ∧
    cc_swu_decrypt.unpack idCipher sumMd5
        ([0x14, 0x17, 0x0B, 0x17] ++ List.replicate 8 0 ++ [99, 0, 0, 0] ++
          List.replicate 16 0 ++ [1]) = .error .integrityMismatch :=
  ⟨by decide,
    (integrity_before_decrypt idCipher sumMd5
        ([0x14, 0x17, 0x0B, 0x17] ++ List.replicate 8 0 ++ [99, 0, 0, 0] ++
          List.replicate 16 0 ++ [1]) (by decide) (by decide)).1 (by decide)⟩

/-- C1 counterexample: the encode tool hands the cipher the key constant
ending `…1FCE` while the decode tool hands it the distinct key constant
ending `…0928`; for a key-sensitive, spec-conforming cipher provider
(`keyedCipher`), decoding a freshly packed container does not return the
padded archive. -/
theorem roundtrip_key_mismatch_cex :
    cc_swu_encrypt._KEY ≠ cc_swu_decrypt._KEY ∧
    cc_swu_decrypt.unpack keyedCipher sumMd5
        (cc_swu_encrypt.pack keyedCipher sumMd5 [0] 0 0 0 0) ≠
      .ok (cc_swu_encrypt._pad16 [0]) := by
  constructor
  · decide
  · decide

/-- C1 amended: the round-trip `unpack (pack A v) = padToBlock A` holds
whenever the decode direction uses the same key and IV that the encode
direction used, for every spec-conforming cipher and digest provider, every
archive and all version fields.  (The shipped tools pass different key
constants to the two directions, so the claim as stated fails — see the
counterexample.) -/
theorem roundtrip_same_key (C : Cipher) (M : Md5) (key iv : String)
    (zipBytes : List Byte) (major minor patch board : Int) :
    cc_swu_decrypt.unpackWith C M key iv
        (cc_swu_encrypt.packWith C M key iv zipBytes major minor patch board) =
      .ok (cc_swu_encrypt._pad16 zipBytes) := by
  rw [cc_swu_decrypt.unpackWith_ok_iff]
  have hpl : (cc_swu_encrypt._pad16 zipBytes).length % 16 = 0 := pad16_mod _
  refine ⟨?_, ?_, ?_, ?_, ?_⟩
  · rw [cc_swu_encrypt.packWith_length]
    simp only [cc_swu_decrypt.HEADER_SIZE]
    omega
  · rw [cc_swu_encrypt.packWith_take4]; rfl
  · rw [cc_swu_encrypt.packWith_drop32, cc_swu_encrypt.packWith_stored]
  · rw [cc_swu_encrypt.packWith_drop32, C.length_encrypt]
    exact hpl
  · rw [cc_swu_encrypt.packWith_drop32, C.decrypt_encrypt _ _ _ hpl]

/-- C4 counterexample: the container packed from the zero-length archive
carries payloadLength 0, which is not positive, refuting the claim's
"positive multiple of 16". -/
theorem pack_empty_not_positive_cex :
    ¬ 0 < cc_swu_decrypt.encLenOf
        (cc_swu_encrypt.pack idCipher sumMd5 [] 0 0 0 0) := by decide

/-- C4 amended: packing a zero-length archive succeeds (the no-op padding
branch leaves it empty) and yields a valid container consisting of exactly
the 32 header bytes and an empty payload; its payloadLength field is 0 — a
multiple of 16, but not positive — and unpack accepts the container,
decoding it to the empty archive. -/
theorem pack_empty_container (C : Cipher) (M : Md5)
    (major minor patch board : Int) :
    (cc_swu_encrypt.pack C M [] major minor patch board).length = 32 ∧
    cc_swu_decrypt.encLenOf (cc_swu_encrypt.pack C M [] major minor patch board) = 0 ∧
    cc_swu_decrypt.encLenOf (cc_swu_encrypt.pack C M [] major minor patch board) % 16
      = 0 ∧
    cc_swu_decrypt.unpack C M (cc_swu_encrypt.pack C M [] major minor patch board) =
      .ok [] := by
  have hpe : cc_swu_encrypt._pad16 ([] : List Byte) = [] := rfl
  have henc : C.encrypt cc_swu_encrypt._KEY cc_swu_encrypt._IV
      (cc_swu_encrypt._pad16 ([] : List Byte)) = [] :=
    List.length_eq_zero.mp (by rw [C.length_encrypt, hpe]; rfl)
  have hlen0 : (C.encrypt cc_swu_encrypt._KEY cc_swu_encrypt._IV
      (cc_swu_encrypt._pad16 ([] : List Byte))).length = 0 := by rw [henc]; rfl
  refine ⟨?_, ?_, ?_, ?_⟩
  · rw [cc_swu_encrypt.pack, cc_swu_encrypt.packWith_length, hlen0]
  · rw [cc_swu_decrypt.encLenOf, cc_swu_encrypt.pack,
      cc_swu_encrypt.packWith_lenField, hlen0]
    decide
  · rw [cc_swu_decrypt.encLenOf, cc_swu_encrypt.pack,
      cc_swu_encrypt.packWith_lenField, hlen0]
    decide
  · rw [cc_swu_decrypt.unpack, cc_swu_decrypt.unpackWith_ok_iff]
    refine ⟨?_, ?_, ?_, ?_, ?_⟩
    · rw [cc_swu_encrypt.pack, cc_swu_encrypt.packWith_length, hlen0]
      simp [cc_swu_decrypt.HEADER_SIZE]
    · rw [cc_swu_encrypt.pack, cc_swu_encrypt.packWith_take4]; rfl
    · rw [cc_swu_encrypt.pack, cc_swu_encrypt.packWith_drop32,
        cc_swu_encrypt.packWith_stored]
    · rw [cc_swu_encrypt.pack, cc_swu_encrypt.packWith_drop32, henc]; rfl
    · rw [cc_swu_encrypt.pack, cc_swu_encrypt.packWith_drop32, henc]
      exact (List.length_eq_zero.mp (by rw [C.length_decrypt]; rfl)).symm

/-- Flip bit `k` (0 = least significant) of a byte. -/
def flipBit (b : Byte) (k : Fin 8) : Byte :=
  ⟨ b.val ^^^ 2 ^ k.val, by
    have h1 : b.val < 2 ^ 8 := by norm_num
    have h2 : (2 : Nat) ^ k.val < 2 ^ 8 :=
      Nat.pow_lt_pow_right (by norm_num) k.isLt
    have h3 := Nat.xor_lt_two_pow h1 h2
    norm_num at h3
    exact h3 ⟩

/-- C5: take any container that unpack accepts and flip one bit — bit `k`
of the byte at offset `32 + j`, i.e. anywhere in the encrypted payload
region.  Whenever the digest distinguishes the flipped payload from the
original (the digest itself is the external MD5 primitive, which this
development does not model bit-for-bit), unpack rejects the tampered
container with `integrityMismatch`; a wrong decode is never returned. -/
theorem bit_flip_detected (C : Cipher) (M : Md5) (data a : List Byte)
    (j : Nat) (k : Fin 8)
    (hok : cc_swu_decrypt.unpack C M data = .ok a)
    (hj : j < (data.drop 32).length)
    (hd : M.digest ((data.drop 32).set j (flipBit ((data.drop 32).getD j 0) k))
        ≠ M.digest (data.drop 32)) :
    cc_swu_decrypt.unpack C M
        (data.set (32 + j) (flipBit ((data.drop 32).getD j 0) k)) =
      .error .integrityMismatch := by
  rw [cc_swu_decrypt.unpack, cc_swu_decrypt.unpackWith_ok_iff] at hok
  obtain ⟨hlen, hmagic, hdig, -, -⟩ := hok
  unfold cc_swu_decrypt.unpack cc_swu_decrypt.unpackWith
  rw [if_neg (by
      rw [List.length_set]
      exact Nat.not_lt.mpr hlen)]
  rw [if_neg (not_not_intro (by
      rw [take_set_le _ _ _ _ (by omega)]
      exact hmagic))]
  rw [if_pos (by
      rw [drop_set_ge _ _ _ _ (by omega), Nat.add_sub_cancel_left,
        drop_set_ge _ _ _ _ (by omega), take_set_le _ _ _ _ (by omega)]
      rw [← hdig]
      exact hd)]

/-- C5 witness: a concrete valid container (all-zero payload of 16 bytes)
with bit 0 of payload byte 0 flipped is rejected with `integrityMismatch`. -/
theorem bit_flip_detected_witness :
    cc_swu_decrypt.unpack idCipher sumMd5
        ((([0x14, 0x17, 0x0B, 0x17] ++ List.replicate 44 0 : List Byte)).set
          (32 + 0)
          (flipBit ((([0x14, 0x17, 0x0B, 0x17] ++ List.replicate 44 0 :
            List Byte)).drop 32 |>.getD 0 0) 0)) =
      .error .integrityMismatch :=
  bit_flip_detected idCipher sumMd5
    ([0x14, 0x17, 0x0B, 0x17] ++ List.replicate 44 0) (List.replicate 16 0) 0 0
    (by decide) (by decide) (by decide)

theorem le32parse_le32 (n : Nat) (h : n < 2 ^ 32) : le32parse (le32 n) = n := by
  show n % 256 + 256 * (n / 256 % 256) + 65536 * (n / 65536 % 256) +
      16777216 * (n / 16777216 % 256) = n
  omega

/-- C8: the pack output is the 32-byte header — magic, the four masked
version/board bytes, customInfo `01 00 00 00`, the little-endian byte count
of the encrypted payload, the 16-byte digest — followed immediately by the
encrypted payload; the stored payloadLength field parses back to exactly the
payload's byte count; and with version (1,1,46), board 0 the first 8 output
bytes are `14 17 0B 17 01 01 2E 00`. -/
theorem pack_layout (C : Cipher) (M : Md5) (zipBytes : List Byte)
    (major minor patch board : Int)
    (hlen : (C.encrypt cc_swu_encrypt._KEY cc_swu_encrypt._IV
        (cc_swu_encrypt._pad16 zipBytes)).length < 2 ^ 32) :
    (cc_swu_encrypt.pack C M zipBytes major minor patch board =
      (cc_swu_encrypt.OTA_MAGIC ++
          [byteOfInt major, byteOfInt minor, byteOfInt patch, byteOfInt board] ++
          cc_swu_encrypt.CUSTOM_INFO ++
          le32 (C.encrypt cc_swu_encrypt._KEY cc_swu_encrypt._IV
            (cc_swu_encrypt._pad16 zipBytes)).length ++
          M.digest (C.encrypt cc_swu_encrypt._KEY cc_swu_encrypt._IV
            (cc_swu_encrypt._pad16 zipBytes))) ++
        C.encrypt cc_swu_encrypt._KEY cc_swu_encrypt._IV
          (cc_swu_encrypt._pad16 zipBytes)) ∧
    ((cc_swu_encrypt.pack C M zipBytes major minor patch board).take 32).length
      = 32 ∧
    cc_swu_decrypt.encLenOf (cc_swu_encrypt.pack C M zipBytes major minor patch board)
      = (C.encrypt cc_swu_encrypt._KEY cc_swu_encrypt._IV
          (cc_swu_encrypt._pad16 zipBytes)).length ∧
    (cc_swu_encrypt.pack C M zipBytes 1 1 46 0).take 8 =
      [0x14, 0x17, 0x0B, 0x17, 0x01, 0x01, 0x2E, 0x00] := by
  refine ⟨rfl, ?_, ?_, rfl⟩
  · rw [List.length_take, cc_swu_encrypt.pack, cc_swu_encrypt.packWith_length]
    omega
  · rw [cc_swu_decrypt.encLenOf, cc_swu_encrypt.pack,
      cc_swu_encrypt.packWith_lenField, le32parse_le32 _ hlen]

/-- C8 witness: the layout facts at a concrete archive `[1]` under the
identity cipher: the first 8 bytes of the (1,1,46,0) container. -/
theorem pack_layout_witness :
    (cc_swu_encrypt.pack idCipher sumMd5 [1] 1 1 46 0).take 8 =
      [0x14, 0x17, 0x0B, 0x17, 0x01, 0x01, 0x2E, 0x00] :=
  (pack_layout idCipher sumMd5 [1] 1 1 46 0 (by decide)).2.2.2

/-- C9: the encode path branches on the input before packing: a path ending
in `.swu` is wrapped into a fresh archive under the single fixed entry name
`update/update.swu` and packed; any other input is packed as-is only when it
begins with the archive signature bytes `PK`; an input that is neither fails
with `notAnArchive`, and no padding, encryption or container output happens
(the result carries no container). -/
theorem encode_branching (C : Cipher) (M : Md5)
    (wrap : List Byte → String → List Byte) (inpath : List Char)
    (fileBytes : List Byte) (major minor patch board : Int) :
    (inpath.reverse.take 4 = ['u', 'w', 's', '.'] →
      cc_swu_encrypt.encodeTool C M wrap inpath fileBytes major minor patch board
        = .ok (cc_swu_encrypt.pack C M (wrap fileBytes cc_swu_encrypt.entryName)
            major minor patch board)) ∧
    (inpath.reverse.take 4 ≠ ['u', 'w', 's', '.'] →
      fileBytes.take 2 = [0x50, 0x4B] →
      cc_swu_encrypt.encodeTool C M wrap inpath fileBytes major minor patch board
        = .ok (cc_swu_encrypt.pack C M fileBytes major minor patch board)) ∧
    (inpath.reverse.take 4 ≠ ['u', 'w', 's', '.'] →
      fileBytes.take 2 ≠ [0x50, 0x4B] →
      cc_swu_encrypt.encodeTool C M wrap inpath fileBytes major minor patch board
        = .error .notAnArchive) := by
  unfold cc_swu_encrypt.encodeTool cc_swu_encrypt.obtainZip
  refine ⟨fun h1 => ?_, fun h1 h2 => ?_, fun h1 h2 => ?_⟩
  · rw [if_pos h1]; rfl
  · rw [if_neg h1, if_pos h2]; rfl
  · rw [if_neg h1, if_neg h2]; rfl

/-- C9 witness: the three branches at concrete inputs: a `.swu` path, a
`PK`-prefixed file under another path, and a non-archive input that is
rejected. -/
theorem encode_branching_witness :
    cc_swu_encrypt.encodeTool idCipher sumMd5 (fun b _ => b)
        ['x', '.', 's', 'w', 'u'] [9] 0 0 0 0 =
      .ok (cc_swu_encrypt.pack idCipher sumMd5 [9] 0 0 0 0) ∧
    cc_swu_encrypt.encodeTool idCipher sumMd5 (fun b _ => b)
        ['x', '.', 'z', 'i', 'p'] [0x50, 0x4B, 7] 0 0 0 0 =
      .ok (cc_swu_encrypt.pack idCipher sumMd5 [0x50, 0x4B, 7] 0 0 0 0) ∧
    cc_swu_encrypt.encodeTool idCipher sumMd5 (fun b _ => b)
        ['x', '.', 'z', 'i', 'p'] [9] 0 0 0 0 = .error .notAnArchive :=
  ⟨(encode_branching idCipher sumMd5 (fun b _ => b) ['x', '.', 's', 'w', 'u']
      [9] 0 0 0 0).1 (by decide),
   (encode_branching idCipher sumMd5 (fun b _ => b) ['x', '.', 'z', 'i', 'p']
      [0x50, 0x4B, 7] 0 0 0 0).2.1 (by decide) (by decide),
   (encode_branching idCipher sumMd5 (fun b _ => b) ['x', '.', 'z', 'i', 'p']
      [9] 0 0 0 0).2.2 (by decide) (by decide)⟩

/-- C10: among containers that unpack accepts (size, magic and integrity
checks all passed), the decoded archive depends only on the payload bytes
from offset 32 onward (and the fixed key/IV): two accepted containers with
identical payloads decode identically, whatever their version, board,
customInfo or payloadLength header fields. -/
theorem unpack_payload_determined (C : Cipher) (M : Md5)
    (d1 d2 a1 a2 : List Byte)
    (h1 : cc_swu_decrypt.unpack C M d1 = .ok a1)
    (h2 : cc_swu_decrypt.unpack C M d2 = .ok a2)
    (hp : d1.drop 32 = d2.drop 32) : a1 = a2 := by
  rw [cc_swu_decrypt.unpack, cc_swu_decrypt.unpackWith_ok_iff] at h1 h2
  rw [h1.2.2.2.2, h2.2.2.2.2, hp]

/-- C10 witness: two concrete valid containers that differ in their
version/board and declared-length header fields but share the payload
decode to the same archive. -/
theorem unpack_payload_determined_witness :
    List.replicate 16 (0 : Byte) = List.replicate 16 (0 : Byte) :=
  unpack_payload_determined idCipher sumMd5
    ([0x14, 0x17, 0x0B, 0x17] ++ List.replicate 44 0)
    ([0x14, 0x17, 0x0B, 0x17, 9, 8, 7, 6, 0, 0, 0, 0, 5, 5, 5, 5] ++
      List.replicate 32 0)
    (List.replicate 16 0) (List.replicate 16 0)
    (by decide) (by decide) (by decide)
